import Mathlib

/-!
Verification of the data pipeline in `notebooks/llmu/Fine_Tuning_for_Rerank.ipynb`.

The notebook's local logic is a linear pipeline:
  * a record-shaping loop turning raw dataset entries (query, five
    `holding_i` passages, a label index) into normalized records,
  * a train/valid/test slicing of the resulting list,
  * a JSONL serializer guarded by a file-existence check,
  * an accuracy evaluator around an external rerank call.

This file embeds each of those pieces as executable Lean definitions,
translated from the notebook source, and proves the specified properties
about them.
-/

/-! ## Data model -/

/-- A raw dataset entry, as the record-shaping loop sees it.  In the source
it is a Python dict with fields `citing_prompt`, `label` and the candidate
passages `holding_0` .. `holding_4`; a holding field may be absent, which we
model with `Option`.  The dataset's `label` value is numeric (the source
applies `int(...)` to it); we carry it as `Nat`. -/
structure RawExample where
  citing_prompt : String
  label : Nat
  holding_0 : Option String
  holding_1 : Option String
  holding_2 : Option String
  holding_3 : Option String
  holding_4 : Option String

/-- The normalized record appended to the list `d` in the shaping loop:
`{'query': ..., 'docs': ..., 'label': ..., 'relevant_passages': ...,
'hard_negatives': ...}`.  Entries of `docs` and `hard_negatives` are produced
by `dict.get` and may be `None`, hence `Option String`. -/
structure NormalizedExample where
  query : String
  docs : List (Option String)
  label : Nat
  relevant_passages : List String
  hard_negatives : List (Option String)
deriving DecidableEq, Repr

/-- Decimal digit character, as produced by Python string formatting. -/
def digitChar (n : Nat) : Char :=
  match n with
  | 0 => '0' | 1 => '1' | 2 => '2' | 3 => '3' | 4 => '4'
  | 5 => '5' | 6 => '6' | 7 => '7' | 8 => '8' | 9 => '9'
  | _ => '*'

/-- Worker for `natDigits`; the fuel argument only forces structural
termination and never runs out on the call pattern used below, because a
number shrinks by a factor of ten per digit emitted. -/
def natDigitsAux (fuel : Nat) (n : Nat) : List Char :=
  match fuel with
  | 0 => [digitChar n]
  | fuel + 1 =>
    if n < 10 then [digitChar n]
    else natDigitsAux fuel (n / 10) ++ [digitChar (n % 10)]

/-- Decimal digit list of a natural number (most significant first), the
digit sequence `"{}".format(n)` produces. -/
def natDigits (n : Nat) : List Char :=
  natDigitsAux n n

/-- Decimal rendering of a natural number, modelling `"{}".format(n)`. -/
def formatNat (n : Nat) : String :=
  ⟨natDigits n⟩

/-! ## Record Shaper (the loop over `iterable_dataset.take(num_examples)`) -/

/-- Size of the data subset taken from the streamed dataset
(`num_examples = 420`). -/
def num_examples : Nat := 420

/-- Labels for the columns containing the 5 documents:
`all_labels = ["holding_" + s for s in ["0",...,"4"]]`. -/
def all_labels : List String :=
  (["0", "1", "2", "3", "4"]).map (fun s => "holding_" ++ s)

/-- Dictionary access `example.get(key)` restricted to the keys the notebook
ever constructs: the five holding columns.  A key outside the record's field
set yields `none`, exactly as `dict.get` yields `None`. -/
def RawExample.get (ex : RawExample) (key : String) : Option String :=
  if key = "holding_0" then ex.holding_0
  else if key = "holding_1" then ex.holding_1
  else if key = "holding_2" then ex.holding_2
  else if key = "holding_3" then ex.holding_3
  else if key = "holding_4" then ex.holding_4
  else none

/-- One iteration of the shaping loop.  `selected_passage_idx` is the
constructed key `"holding_{}".format(example["label"])`; the subscript
access `example[selected_passage_idx]` raises `KeyError` when that key is
absent, which we model by returning `none` for the whole record, while the
`example.get(key)` accesses silently embed missing fields as `none`
entries. -/
def shapeExample (ex : RawExample) : Option NormalizedExample :=
  let selected_passage_idx := "holding_" ++ formatNat ex.label
  let hard_negatives_idx := all_labels.filter (fun x => x ≠ selected_passage_idx)
  match ex.get selected_passage_idx with
  | none => none
  | some relevant =>
      some { query := ex.citing_prompt
             docs := all_labels.map ex.get
             label := ex.label
             relevant_passages := [relevant]
             hard_negatives := hard_negatives_idx.map ex.get }

/-! ## Splitter (the `df[:train_num]` / `df[train_num:train_num+valid_num]` /
`df[train_num+valid_num:]` slicing) -/

/-- Number of training examples (`train_num = 256`). -/
def train_num : Nat := 256

/-- Number of validation examples (`valid_num = 154`). -/
def valid_num : Nat := 154

/-- Number of test examples (`test_num = 10`). -/
def test_num : Nat := 10

/-- The train-validation-test split.  Mirrors the slicing in the notebook:
`df_train = df[:train_num]`, `df_valid = df[train_num:train_num+valid_num]`,
`df_test = df[train_num+valid_num:]`.  Note that the third slice is the
whole remainder of the dataframe; the `test_num` count does not occur in any
slice expression. -/
def splitData (df : List α) (trainN validN testN : Nat) :
    List α × List α × List α :=
  let df_train := df.take trainN
  let df_valid := (df.drop trainN).take validN
  let df_test := df.drop (trainN + validN)
  let _ := testN
  (df_train, df_valid, df_test)

/-! ## Serializer (`create_rerank_ft_data` / `create_jsonl_from_list`) -/

/-- The dictionary built by `create_rerank_ft_data`: the `{query,
relevant_passages, hard_negatives}` projection of a normalized example, the
label omitted. -/
structure FineTuneRecord where
  query : String
  relevant_passages : List String
  hard_negatives : List String
deriving DecidableEq, Repr

/-- The function `create_rerank_ft_data(query, relevant_passages,
hard_negatives)`. -/
def create_rerank_ft_data (query : String) (relevant_passages : List String)
    (hard_negatives : List String) : FineTuneRecord :=
  { query := query
    relevant_passages := relevant_passages
    hard_negatives := hard_negatives }

/-- Lowercase hexadecimal digit character, as used by Python's `\uXXXX`
escapes. -/
def hexDigitChar (n : Nat) : Char :=
  match n with
  | 0 => '0' | 1 => '1' | 2 => '2' | 3 => '3' | 4 => '4'
  | 5 => '5' | 6 => '6' | 7 => '7' | 8 => '8' | 9 => '9'
  | 10 => 'a' | 11 => 'b' | 12 => 'c' | 13 => 'd' | 14 => 'e' | 15 => 'f'
  | _ => '*'

/-- The six-character escape sequence `\uXXXX` for a UTF-16 code unit. -/
def uEscape (n : Nat) : List Char :=
  ['\\', 'u', hexDigitChar (n / 4096 % 16), hexDigitChar (n / 256 % 16),
   hexDigitChar (n / 16 % 16), hexDigitChar (n % 16)]

/-- How `json.dumps` (with its default `ensure_ascii=True`) renders one
character inside a JSON string literal: `"` and `\` and the five named
control characters get two-character escapes, other characters outside the
printable ASCII range `0x20..0x7e` get `\uXXXX` escapes (a surrogate pair
for codepoints above `0xFFFF`), and printable ASCII passes through. -/
def escapeChar (c : Char) : List Char :=
  if c = '"' then ['\\', '"']
  else if c = '\\' then ['\\', '\\']
  else if c = '\n' then ['\\', 'n']
  else if c = '\r' then ['\\', 'r']
  else if c = '\t' then ['\\', 't']
  else if c.toNat = 8 then ['\\', 'b']
  else if c.toNat = 12 then ['\\', 'f']
  else if 32 ≤ c.toNat ∧ c.toNat ≤ 126 then [c]
  else if c.toNat < 65536 then uEscape c.toNat
  else uEscape (55296 + (c.toNat - 65536) / 1024)
       ++ uEscape (56320 + (c.toNat - 65536) % 1024)

/-- JSON string literal for `s`, as `json.dumps` renders it. -/
def encodeJsonString (s : String) : List Char :=
  '"' :: (s.data.flatMap escapeChar ++ ['"'])

/-- The comma-space separated item list of a JSON array of strings
(`json.dumps` uses `", "` as its default item separator). -/
def encodeStrListBody : List String → List Char
  | [] => []
  | [s] => encodeJsonString s
  | s :: rest => encodeJsonString s ++ (", ".data ++ encodeStrListBody rest)

/-- JSON array of strings, as `json.dumps` renders it. -/
def encodeStrList (xs : List String) : List Char :=
  '[' :: (encodeStrListBody xs ++ [']'])

/-- One serialized line: `json.dumps` applied to the dictionary built by
`create_rerank_ft_data`, with its default separators and key order `query`,
`relevant_passages`, `hard_negatives`. -/
def encodeRecord (r : FineTuneRecord) : List Char :=
  "\x7b\"query\": ".data ++ encodeJsonString r.query
    ++ ", \"relevant_passages\": ".data ++ encodeStrList r.relevant_passages
    ++ ", \"hard_negatives\": ".data ++ encodeStrList r.hard_negatives
    ++ "\x7d".data

/-- The full contents written by the loop in `create_jsonl_from_list`: for
each row, `json.dumps(create_rerank_ft_data(...)) + '\n'`. -/
def jsonlContent (rows : List FineTuneRecord) : List Char :=
  rows.flatMap (fun row =>
    encodeRecord (create_rerank_ft_data row.query row.relevant_passages
      row.hard_negatives) ++ ['\n'])

/-- The function `create_jsonl_from_list(file_name, df)`.  The filesystem is
modelled as a map from paths to file contents; the function writes
`f'{file_name}.jsonl'` only when `os.path.isfile(path)` is false, and
otherwise leaves the filesystem untouched. -/
def create_jsonl_from_list (fs : String → Option (List Char))
    (file_name : String) (rows : List FineTuneRecord) :
    String → Option (List Char) :=
  let path := file_name ++ ".jsonl"
  match fs path with
  | some _ => fs
  | none => fun p => if p = path then some (jsonlContent rows) else fs p

/-! ## A JSON reader for the written lines.

Modelled from the spec: reading the file back re-parses each line with a
standard JSON reader (`jsonlines` / `json.loads`, which are library code,
not part of this repository).  The parser below genuinely consumes the
line character by character: string escapes (including `\uXXXX` and
surrogate pairs) are decoded, array items are read one by one, and any
malformed input yields `none`. -/

/-- Value of one hexadecimal digit character, upper or lower case. -/
def parseHexDigit (c : Char) : Option Nat :=
  if 48 ≤ c.toNat ∧ c.toNat ≤ 57 then some (c.toNat - 48)
  else if 97 ≤ c.toNat ∧ c.toNat ≤ 102 then some (c.toNat - 87)
  else if 65 ≤ c.toNat ∧ c.toNat ≤ 70 then some (c.toNat - 55)
  else none

/-- Value of four consecutive hexadecimal digit characters. -/
def hex4 (h1 h2 h3 h4 : Char) : Option Nat :=
  match parseHexDigit h1, parseHexDigit h2, parseHexDigit h3, parseHexDigit h4 with
  | some a1, some a2, some a3, some a4 => some (a1 * 4096 + a2 * 256 + a3 * 16 + a4)
  | _, _, _, _ => none

/-- Decode the low half of a surrogate pair: the input is positioned right
after a high-surrogate `\uXXXX` escape whose value is `n`, and must start
with the matching low-surrogate escape. -/
def nextLowSurrogate (n : Nat) : List Char → Option (Option Char × List Char)
  | e1 :: e2 :: l1 :: l2 :: l3 :: l4 :: rest =>
    if e1 = '\\' ∧ e2 = 'u' then
      match hex4 l1 l2 l3 l4 with
      | some m =>
        if 56320 ≤ m ∧ m < 57344 then
          some (some (Char.ofNat (65536 + (n - 55296) * 1024 + (m - 56320))), rest)
        else none
      | none => none
    else none
  | _ => none

/-- Decode a `\uXXXX` escape (the input is positioned right after `\u`),
combining surrogate pairs into one codepoint. -/
def nextUnicode : List Char → Option (Option Char × List Char)
  | h1 :: h2 :: h3 :: h4 :: rest =>
    match hex4 h1 h2 h3 h4 with
    | some n =>
      if 55296 ≤ n ∧ n < 56320 then nextLowSurrogate n rest
      else if 56320 ≤ n ∧ n < 57344 then none
      else some (some (Char.ofNat n), rest)
    | none => none
  | _ => none

/-- Decode one backslash escape (the input is positioned right after the
backslash, `e` being the escape character). -/
def nextEscape (e : Char) (rest : List Char) : Option (Option Char × List Char) :=
  if e = '"' then some (some '"', rest)
  else if e = '\\' then some (some '\\', rest)
  else if e = '/' then some (some '/', rest)
  else if e = 'n' then some (some '\n', rest)
  else if e = 'r' then some (some '\r', rest)
  else if e = 't' then some (some '\t', rest)
  else if e = 'b' then some (some (Char.ofNat 8), rest)
  else if e = 'f' then some (some (Char.ofNat 12), rest)
  else if e = 'u' then nextUnicode rest
  else none

/-- Consume one token of a JSON string body: `some (none, rest)` for the
closing quote, `some (some c, rest)` for one decoded character, `none` for
malformed input. -/
def nextToken : List Char → Option (Option Char × List Char)
  | [] => none
  | c :: rest =>
    if c = '"' then some (none, rest)
    else if c = '\\' then
      match rest with
      | [] => none
      | e :: rest2 => nextEscape e rest2
    else some (some c, rest)

/-- Consume the body of a JSON string literal (the opening `"` already
read), decoding escapes, up to and including the closing `"`.  Returns the
decoded characters and the unconsumed remainder.  The fuel argument bounds
the number of decoded characters; every token consumes at least one input
character, so the caller's choice below never runs out. -/
def parseStringBodyF : Nat → List Char → Option (List Char × List Char)
  | 0, _ => none
  | fuel + 1, l =>
    match nextToken l with
    | none => none
    | some (none, rest) => some ([], rest)
    | some (some c, rest) => (parseStringBodyF fuel rest).map (fun p => (c :: p.1, p.2))

/-- Consume a complete JSON string literal, opening quote included. -/
def parseJsonString : List Char → Option (List Char × List Char)
  | [] => none
  | c :: rest => if c = '"' then parseStringBodyF (rest.length + 1) rest else none

/-- Consume the items of a non-empty JSON string array, positioned at the
opening quote of the next item; stops after the closing `]`.  The fuel
argument bounds the number of items. -/
def parseStrItems (fuel : Nat) (l : List Char) :
    Option (List (List Char) × List Char) :=
  match fuel with
  | 0 => none
  | fuel + 1 =>
    match parseJsonString l with
    | none => none
    | some (s, rest) =>
      match rest with
      | ']' :: rest2 => some ([s], rest2)
      | ',' :: ' ' :: rest2 =>
        match parseStrItems fuel rest2 with
        | some (ss, rest3) => some (s :: ss, rest3)
        | none => none
      | _ => none

/-- Consume a JSON array of strings in the exact `json.dumps` rendering. -/
def parseStrList (l : List Char) : Option (List (List Char) × List Char) :=
  match l with
  | '[' :: ']' :: rest => some ([], rest)
  | '[' :: rest => parseStrItems rest.length rest
  | _ => none

/-- Consume an expected literal character sequence. -/
def expects : List Char → List Char → Option (List Char)
  | [], l => some l
  | _ :: _, [] => none
  | p :: ps, c :: cs => if c = p then expects ps cs else none

/-- Parse one line of the written JSONL file back into a `FineTuneRecord`,
as `json.loads` does when reading the file.  The whole line must be
consumed. -/
def parseRecordLine (l : List Char) : Option FineTuneRecord := do
  let r1 ← expects "\x7b\"query\": ".data l
  let (q, r2) ← parseJsonString r1
  let r3 ← expects ", \"relevant_passages\": ".data r2
  let (rp, r4) ← parseStrList r3
  let r5 ← expects ", \"hard_negatives\": ".data r4
  let (hn, r6) ← parseStrList r5
  let r7 ← expects "\x7d".data r6
  if r7 = [] then
    some { query := ⟨q⟩
           relevant_passages := rp.map (fun x => (⟨x⟩ : String))
           hard_negatives := hn.map (fun x => (⟨x⟩ : String)) }
  else none

/-- Split file contents at newline characters (the line structure that
`jsonlines` reading recovers); a trailing newline yields a final empty
chunk. -/
def splitOnNl : List Char → List (List Char)
  | [] => [[]]
  | c :: rest =>
    if c = '\n' then [] :: splitOnNl rest
    else
      match splitOnNl rest with
      | [] => [[c]]
      | l :: ls => (c :: l) :: ls

/-! ## Evaluator (`get_prediction` and the accuracy computations) -/

/-- The payload of one `co.rerank(...)` call. -/
structure RerankRequest where
  model : String
  query : String
  documents : List (Option String)
  top_n : Nat
deriving DecidableEq, Repr

/-- One entry of `response.results`: an index into the submitted document
list together with a relevance score. -/
structure RerankResult where
  index : Nat
  relevance_score : ℚ
deriving DecidableEq, Repr

/-- The response of a `co.rerank(...)` call. -/
structure RerankResponse where
  results : List RerankResult
deriving DecidableEq, Repr

/-- The function `get_prediction(item, model)`.  The external client `co` is
passed as a function from requests to responses; the value returned is the
list of requests issued (the call trace) together with
`response.results[0].index`, the latter `none` when the result list is empty
(where Python would raise `IndexError`). -/
def get_prediction (co : RerankRequest → RerankResponse)
    (model : String) (item : NormalizedExample) :
    List RerankRequest × Option Nat :=
  let req : RerankRequest :=
    { model := model, query := item.query, documents := item.docs, top_n := 1 }
  let response := co req
  (([req] : List RerankRequest), response.results.head?.map RerankResult.index)

/-- The prediction column `df_test.apply(get_prediction, axis=1)`. -/
def predictionColumn (co : RerankRequest → RerankResponse)
    (model : String) (tests : List NormalizedExample) : List (Option Nat) :=
  tests.map (fun t => (get_prediction co model t).2)

/-- The full call trace of an evaluation pass over the test set. -/
def evaluationRequests (co : RerankRequest → RerankResponse)
    (model : String) (tests : List NormalizedExample) : List RerankRequest :=
  tests.flatMap (fun t => (get_prediction co model t).1)

/-- The label column `df_test["label"]`. -/
def labelColumn (tests : List NormalizedExample) : List Nat :=
  tests.map NormalizedExample.label

/-- The sum `sum(preds == labels)` of the elementwise comparison of the
prediction column with the label column. -/
def seriesEqSum (preds : List (Option Nat)) (labels : List Nat) : Nat :=
  (preds.zip labels).countP (fun p => p.1 == some p.2)

/-- Accuracy of a prediction column against a label column:
`sum(preds == labels) / len(df_test)`.  The source divides two Python
integers; both extremes and the bounds are exact there, and we compute in
`ℚ`. -/
def accuracyOf (preds : List (Option Nat)) (labels : List Nat) : ℚ :=
  (seriesEqSum preds labels : ℚ) / (labels.length : ℚ)

/-- The accuracy printed by the notebook for a given model identifier:
`sum(df_test["prediction"] == df_test["label"]) / len(df_test)`. -/
def evalAccuracy (co : RerankRequest → RerankResponse)
    (model : String) (tests : List NormalizedExample) : ℚ :=
  accuracyOf (predictionColumn co model tests) (labelColumn tests)

/-! ## Helper lemmas about the constructed holding keys -/

theorem natDigitsAux_ne_nil (fuel n : Nat) : natDigitsAux fuel n ≠ [] := by
  cases fuel with
  | zero => simp [natDigitsAux]
  | succ f => simp only [natDigitsAux]; split <;> simp

theorem natDigits_lt10 (n : Nat) (h : n < 10) : natDigits n = [digitChar n] := by
  unfold natDigits
  cases n with
  | zero => rfl
  | succ m => simp only [natDigitsAux]; rw [if_pos h]

theorem natDigits_ge10 (n : Nat) (h : 10 ≤ n) :
    natDigits n = natDigitsAux (n - 1) (n / 10) ++ [digitChar (n % 10)] := by
  unfold natDigits
  cases n with
  | zero => omega
  | succ m =>
    simp only [natDigitsAux]
    rw [if_neg (by omega)]
    simp

theorem natDigits_ge5_ne_digit (n k : Nat) (h5 : 5 ≤ n) (hk : k < 5) :
    natDigits n ≠ [digitChar k] := by
  by_cases hn : n < 10
  · rw [natDigits_lt10 n hn]
    intro heq
    have hc : digitChar n = digitChar k := by simpa using heq
    interval_cases n <;> interval_cases k <;> simp_all [digitChar]
  · rw [natDigits_ge10 n (by omega)]
    intro heq
    have hlen := congrArg List.length heq
    simp at hlen
    exact natDigitsAux_ne_nil (n - 1) (n / 10) hlen

theorem constructedKey_ne (n k : Nat) (h5 : 5 ≤ n) (hk : k < 5) :
    ("holding_" ++ formatNat n : String) ≠ "holding_" ++ formatNat k := by
  intro heq
  have hd := congrArg String.data heq
  rw [String.data_append, String.data_append] at hd
  have h2 : natDigits n = natDigits k := List.append_cancel_left hd
  exact natDigits_ge5_ne_digit n k h5 hk (by rw [h2, natDigits_lt10 k (by omega)])

theorem get_constructedKey_ge5 (ex : RawExample) (h : 5 ≤ ex.label) :
    ex.get ("holding_" ++ formatNat ex.label) = none := by
  have h0 := constructedKey_ne ex.label 0 h (by omega)
  have h1 := constructedKey_ne ex.label 1 h (by omega)
  have h2 := constructedKey_ne ex.label 2 h (by omega)
  have h3 := constructedKey_ne ex.label 3 h (by omega)
  have h4 := constructedKey_ne ex.label 4 h (by omega)
  rw [show ("holding_" ++ formatNat 0 : String) = "holding_0" from by decide] at h0
  rw [show ("holding_" ++ formatNat 1 : String) = "holding_1" from by decide] at h1
  rw [show ("holding_" ++ formatNat 2 : String) = "holding_2" from by decide] at h2
  rw [show ("holding_" ++ formatNat 3 : String) = "holding_3" from by decide] at h3
  rw [show ("holding_" ++ formatNat 4 : String) = "holding_4" from by decide] at h4
  unfold RawExample.get
  rw [if_neg h0, if_neg h1, if_neg h2, if_neg h3, if_neg h4]

/-! ## Claim C1: the Record Shaper contract -/

/-- C1: for every `RawExample` whose label index `i` lies in `[0,5)` and
whose five candidate passages are all present, shaping produces a
`NormalizedExample` with `relevant_passages = [candidates[i]]` and
`hard_negatives` equal to the four candidates with index `i` removed in
their original relative order; consequently `len(relevant_passages) = 1`,
`len(hard_negatives) = 4`, and the multiset union of `relevant_passages`
and `hard_negatives` equals the original five candidates. -/
theorem shaper_contract (ex : RawExample) (c0 c1 c2 c3 c4 : String)
    (hl : ex.label < 5)
    (h0 : ex.holding_0 = some c0) (h1 : ex.holding_1 = some c1)
    (h2 : ex.holding_2 = some c2) (h3 : ex.holding_3 = some c3)
    (h4 : ex.holding_4 = some c4) :
    ∃ ne, shapeExample ex = some ne ∧
      ne.relevant_passages = [[c0, c1, c2, c3, c4].getD ex.label ""] ∧
      ne.hard_negatives = ([c0, c1, c2, c3, c4].eraseIdx ex.label).map some ∧
      ne.relevant_passages.length = 1 ∧
      ne.hard_negatives.length = 4 ∧
      ((ne.relevant_passages.map some ++ ne.hard_negatives : List (Option String)) : Multiset (Option String))
        = (([c0, c1, c2, c3, c4].map some : List (Option String)) : Multiset (Option String)) := by
  obtain ⟨cp, lab, o0, o1, o2, o3, o4⟩ := ex
  simp only at hl h0 h1 h2 h3 h4
  subst h0 h1 h2 h3 h4
  interval_cases lab
  · exact ⟨_, rfl, rfl, rfl, rfl, rfl, rfl⟩
  · refine ⟨_, rfl, rfl, rfl, rfl, rfl, ?_⟩
    show (([some c1, some c0, some c2, some c3, some c4] : List (Option String)) : Multiset (Option String))
      = (([some c0, some c1, some c2, some c3, some c4] : List (Option String)) : Multiset (Option String))
    exact Multiset.coe_eq_coe.mpr
      (@List.perm_middle (Option String) (some c1) [some c0] [some c2, some c3, some c4]).symm
  · refine ⟨_, rfl, rfl, rfl, rfl, rfl, ?_⟩
    show (([some c2, some c0, some c1, some c3, some c4] : List (Option String)) : Multiset (Option String))
      = (([some c0, some c1, some c2, some c3, some c4] : List (Option String)) : Multiset (Option String))
    exact Multiset.coe_eq_coe.mpr
      (@List.perm_middle (Option String) (some c2) [some c0, some c1] [some c3, some c4]).symm
  · refine ⟨_, rfl, rfl, rfl, rfl, rfl, ?_⟩
    show (([some c3, some c0, some c1, some c2, some c4] : List (Option String)) : Multiset (Option String))
      = (([some c0, some c1, some c2, some c3, some c4] : List (Option String)) : Multiset (Option String))
    exact Multiset.coe_eq_coe.mpr
      (@List.perm_middle (Option String) (some c3) [some c0, some c1, some c2] [some c4]).symm
  · refine ⟨_, rfl, rfl, rfl, rfl, rfl, ?_⟩
    show (([some c4, some c0, some c1, some c2, some c3] : List (Option String)) : Multiset (Option String))
      = (([some c0, some c1, some c2, some c3, some c4] : List (Option String)) : Multiset (Option String))
    exact Multiset.coe_eq_coe.mpr
      (@List.perm_middle (Option String) (some c4) [some c0, some c1, some c2, some c3] []).symm

/-- Witness for C1 at the concrete raw example with label 3 and passages
`a b c d e`. -/
theorem shaper_contract_witness :
    ((RawExample.mk "q" 3 (some "a") (some "b") (some "c") (some "d") (some "e")).label < 5) ∧
    (∃ ne, shapeExample (RawExample.mk "q" 3 (some "a") (some "b") (some "c") (some "d") (some "e")) = some ne ∧
      ne.relevant_passages = [["a", "b", "c", "d", "e"].getD (RawExample.mk "q" 3 (some "a") (some "b") (some "c") (some "d") (some "e")).label ""] ∧
      ne.hard_negatives = (["a", "b", "c", "d", "e"].eraseIdx (RawExample.mk "q" 3 (some "a") (some "b") (some "c") (some "d") (some "e")).label).map some ∧
      ne.relevant_passages.length = 1 ∧
      ne.hard_negatives.length = 4 ∧
      ((ne.relevant_passages.map some ++ ne.hard_negatives : List (Option String)) : Multiset (Option String))
        = ((["a", "b", "c", "d", "e"].map some : List (Option String)) : Multiset (Option String))) :=
  ⟨by decide,
   shaper_contract (RawExample.mk "q" 3 (some "a") (some "b") (some "c") (some "d") (some "e"))
     "a" "b" "c" "d" "e" (by decide) rfl rfl rfl rfl rfl⟩

/-! ## Claim C2: the Splitter contract (corrected) -/

/-- C2 counterexample: the general splitter claim fails on the code.  For
the three-element sequence `["a","b","c"]` and counts `(1,1,0)` the claim
demands that concatenating the three slices reproduce the prefix of length
`1+1+0 = 2`, but `df_test = df[train_num+valid_num:]` takes the whole
remainder, so the concatenation is the entire sequence and the test slice
has length 1, not 0. -/
theorem splitter_general_claim_counterexample :
    ¬((splitData ["a", "b", "c"] 1 1 0).1 ++ (splitData ["a", "b", "c"] 1 1 0).2.1
        ++ (splitData ["a", "b", "c"] 1 1 0).2.2
      = (["a", "b", "c"] : List String).take (1 + 1 + 0)) ∧
    (splitData ["a", "b", "c"] 1 1 0).2.2 = ["c"] := by
  constructor
  · decide
  · decide

/-- C2 amended: for any sequence and any counts with
`train + valid + test ≤ N`, the splitter returns `train = [0,train)` and
`valid = [train,train+valid)` as claimed, but the third slice is the whole
remainder `[train+valid, N)` (the `test` count is not used in any slice);
the three slices are disjoint contiguous index ranges in original order,
their concatenation reproduces the entire original sequence, and exactly
when `train + valid + test = N` the test slice has length `test` (so the
original claim holds in that case). -/
theorem splitter_contract_amended {α : Type} (df : List α) (trainN validN testN : Nat)
    (hsum : trainN + validN + testN ≤ df.length) :
    (splitData df trainN validN testN).1 = df.take trainN ∧
    (splitData df trainN validN testN).2.1 = (df.drop trainN).take validN ∧
    (splitData df trainN validN testN).2.2 = df.drop (trainN + validN) ∧
    (∀ i : Nat, ((splitData df trainN validN testN).1)[i]? =
      if i < trainN then df[i]? else none) ∧
    (∀ i : Nat, ((splitData df trainN validN testN).2.1)[i]? =
      if i < validN then df[trainN + i]? else none) ∧
    (∀ i : Nat, ((splitData df trainN validN testN).2.2)[i]? =
      df[trainN + validN + i]?) ∧
    (splitData df trainN validN testN).1 ++ (splitData df trainN validN testN).2.1
      ++ (splitData df trainN validN testN).2.2 = df ∧
    (trainN + validN + testN = df.length →
      ((splitData df trainN validN testN).2.2).length = testN) := by
  refine ⟨rfl, rfl, rfl, ?_, ?_, ?_, ?_, ?_⟩
  · intro i; simp [splitData, List.getElem?_take]
  · intro i; simp [splitData, List.getElem?_take, List.getElem?_drop]
  · intro i; simp [splitData, List.getElem?_drop]
  · show df.take trainN ++ (df.drop trainN).take validN ++ df.drop (trainN + validN) = df
    rw [List.append_assoc, ← List.drop_drop, List.take_append_drop, List.take_append_drop]
  · intro h; simp [splitData, List.length_drop]; omega

/-- Witness for the amended C2 at the sequence `[10,20,30,40]` with counts
`(2,1,1)`. -/
theorem splitter_contract_amended_witness :
    (2 + 1 + 1 ≤ ([10, 20, 30, 40] : List Nat).length) ∧
    ((splitData [10, 20, 30, 40] 2 1 1).1 = ([10, 20, 30, 40] : List Nat).take 2 ∧
    (splitData [10, 20, 30, 40] 2 1 1).2.1 = (([10, 20, 30, 40] : List Nat).drop 2).take 1 ∧
    (splitData [10, 20, 30, 40] 2 1 1).2.2 = ([10, 20, 30, 40] : List Nat).drop (2 + 1) ∧
    (∀ i : Nat, ((splitData [10, 20, 30, 40] 2 1 1).1)[i]? =
      if i < 2 then ([10, 20, 30, 40] : List Nat)[i]? else none) ∧
    (∀ i : Nat, ((splitData [10, 20, 30, 40] 2 1 1).2.1)[i]? =
      if i < 1 then ([10, 20, 30, 40] : List Nat)[2 + i]? else none) ∧
    (∀ i : Nat, ((splitData [10, 20, 30, 40] 2 1 1).2.2)[i]? =
      ([10, 20, 30, 40] : List Nat)[2 + 1 + i]?) ∧
    (splitData [10, 20, 30, 40] 2 1 1).1 ++ (splitData [10, 20, 30, 40] 2 1 1).2.1
      ++ (splitData [10, 20, 30, 40] 2 1 1).2.2 = [10, 20, 30, 40] ∧
    (2 + 1 + 1 = ([10, 20, 30, 40] : List Nat).length →
      ((splitData [10, 20, 30, 40] 2 1 1).2.2).length = 1)) :=
  ⟨by decide, splitter_contract_amended [10, 20, 30, 40] 2 1 1 (by decide)⟩

/-! ## Claim C3: the concrete 420 = 256 + 154 + 10 split -/

/-- C3: when the loaded sequence has exactly 420 examples and the counts
are `(256, 154, 10)`, the three slices have sizes exactly 256, 154 and 10,
and they are drawn from the pairwise disjoint index ranges `[0,256)`,
`[256,410)` and `[410,420)`, so no index belongs to more than one slice. -/
theorem splitter_scenario_420 {α : Type} (df : List α) (h : df.length = 420) :
    ((splitData df 256 154 10).1).length = 256 ∧
    ((splitData df 256 154 10).2.1).length = 154 ∧
    ((splitData df 256 154 10).2.2).length = 10 ∧
    (∀ i : Nat, ((splitData df 256 154 10).1)[i]? =
      if i < 256 then df[i]? else none) ∧
    (∀ i : Nat, ((splitData df 256 154 10).2.1)[i]? =
      if i < 154 then df[256 + i]? else none) ∧
    (∀ i : Nat, ((splitData df 256 154 10).2.2)[i]? = df[410 + i]?) := by
  refine ⟨?_, ?_, ?_, ?_, ?_, ?_⟩
  · simp [splitData, List.length_take, h]
  · simp [splitData, List.length_take, List.length_drop, h]
  · simp [splitData, List.length_drop, h]
  · intro i; simp [splitData, List.getElem?_take]
  · intro i; simp [splitData, List.getElem?_take, List.getElem?_drop]
  · intro i; simp [splitData, List.getElem?_drop]

/-- Witness for C3 at the concrete sequence `List.range 420`. -/
theorem splitter_scenario_420_witness :
    ((List.range 420).length = 420) ∧
    (((splitData (List.range 420) 256 154 10).1).length = 256 ∧
    ((splitData (List.range 420) 256 154 10).2.1).length = 154 ∧
    ((splitData (List.range 420) 256 154 10).2.2).length = 10 ∧
    (∀ i : Nat, ((splitData (List.range 420) 256 154 10).1)[i]? =
      if i < 256 then (List.range 420)[i]? else none) ∧
    (∀ i : Nat, ((splitData (List.range 420) 256 154 10).2.1)[i]? =
      if i < 154 then (List.range 420)[256 + i]? else none) ∧
    (∀ i : Nat, ((splitData (List.range 420) 256 154 10).2.2)[i]? =
      (List.range 420)[410 + i]?)) :=
  ⟨List.length_range 420, splitter_scenario_420 (List.range 420) (List.length_range 420)⟩

/-! ## Claim C6: accuracy bounds and extremes -/

/-- C6: for every non-empty test set the computed accuracy (matching
predictions divided by the number of test examples) lies in `[0,1]`; it is
exactly 1 when every prediction matches its label and exactly 0 when none
does. -/
theorem accuracy_bounds_and_extremes (preds : List (Option Nat)) (labels : List Nat)
    (hne : labels ≠ []) (hlen : preds.length = labels.length) :
    0 ≤ accuracyOf preds labels ∧ accuracyOf preds labels ≤ 1 ∧
    ((∀ p ∈ preds.zip labels, p.1 = some p.2) → accuracyOf preds labels = 1) ∧
    ((∀ p ∈ preds.zip labels, p.1 ≠ some p.2) → accuracyOf preds labels = 0) := by
  have hn : (0 : ℚ) < (labels.length : ℚ) := by
    have := List.length_pos.mpr hne
    exact_mod_cast this
  have hcount : seriesEqSum preds labels ≤ labels.length := by
    unfold seriesEqSum
    calc (preds.zip labels).countP (fun p => p.1 == some p.2)
        ≤ (preds.zip labels).length := List.countP_le_length _
      _ ≤ labels.length := by rw [List.length_zip]; omega
  refine ⟨?_, ?_, ?_, ?_⟩
  · unfold accuracyOf
    exact div_nonneg (by positivity) (le_of_lt hn)
  · unfold accuracyOf
    rw [div_le_one hn]
    exact_mod_cast hcount
  · intro hall
    have hs : seriesEqSum preds labels = labels.length := by
      unfold seriesEqSum
      rw [List.countP_eq_length.mpr ?_]
      · rw [List.length_zip, hlen, Nat.min_self]
      · intro a ha; simpa using hall a ha
    unfold accuracyOf
    rw [hs]
    exact div_self (ne_of_gt hn)
  · intro hnone
    have hs : seriesEqSum preds labels = 0 := by
      unfold seriesEqSum
      rw [List.countP_eq_zero.mpr]
      intro a ha; simpa using hnone a ha
    unfold accuracyOf
    rw [hs]
    simp

/-- Witness for C6 at a three-element test set with predictions
`[1, 0, 2]` against labels `[1, 5, 2]`. -/
theorem accuracy_bounds_and_extremes_witness :
    (([1, 5, 2] : List Nat) ≠ [] ∧
      ([some 1, some 0, some 2] : List (Option Nat)).length = ([1, 5, 2] : List Nat).length) ∧
    (0 ≤ accuracyOf [some 1, some 0, some 2] [1, 5, 2] ∧
      accuracyOf [some 1, some 0, some 2] [1, 5, 2] ≤ 1 ∧
      ((∀ p ∈ ([some 1, some 0, some 2] : List (Option Nat)).zip [1, 5, 2], p.1 = some p.2) →
        accuracyOf [some 1, some 0, some 2] [1, 5, 2] = 1) ∧
      ((∀ p ∈ ([some 1, some 0, some 2] : List (Option Nat)).zip [1, 5, 2], p.1 ≠ some p.2) →
        accuracyOf [some 1, some 0, some 2] [1, 5, 2] = 0)) :=
  ⟨⟨by decide, by decide⟩,
   accuracy_bounds_and_extremes [some 1, some 0, some 2] [1, 5, 2] (by decide) (by decide)⟩

/-! ## Claim C7: evaluator per-record contract -/

/-- C7: for every test example the evaluator issues exactly one ranking
request, consisting of the configured model identifier, the example's query,
the five original candidate documents in original order, and `top_n = 1`;
the predicted label is the original-ordering index of the single top-ranked
result, and the reported accuracy equals the number of examples whose
prediction matches the ground-truth label divided by the number of test
examples. -/
theorem evaluator_per_record_contract (co : RerankRequest → RerankResponse)
    (model : String) (tests : List NormalizedExample) :
    evaluationRequests co model tests
      = tests.map (fun t =>
          { model := model, query := t.query, documents := t.docs, top_n := 1 }) ∧
    (∀ t ∈ tests,
      (get_prediction co model t).1
        = [{ model := model, query := t.query, documents := t.docs, top_n := 1 }] ∧
      ∀ res rest,
        (co { model := model, query := t.query, documents := t.docs, top_n := 1 }).results = res :: rest →
        (get_prediction co model t).2 = some res.index) ∧
    evalAccuracy co model tests
      = ((tests.countP fun t => (get_prediction co model t).2 == some t.label : Nat) : ℚ)
        / ((tests.length : ℚ)) := by
  refine ⟨?_, ?_, ?_⟩
  · induction tests with
    | nil => rfl
    | cons t ts ih =>
      simp only [evaluationRequests, List.flatMap_cons, List.map_cons] at ih ⊢
      rw [ih]
      rfl
  · intro t _
    exact ⟨rfl, fun res rest h => by simp [get_prediction, h]⟩
  · unfold evalAccuracy accuracyOf seriesEqSum predictionColumn labelColumn
    rw [List.zip_map']
    rw [List.countP_map]
    simp only [List.length_map]
    rfl

/-! ## Claim C8: the label-pointing invariant -/

/-- C8: for every `NormalizedExample` the shaper produces from an in-range
label with the selected passage present, the stored label equals the
original candidate index, remains a valid index into `docs` (the candidates
in original order), and `docs[label]` equals the single element of
`relevant_passages`. -/
theorem shaper_label_invariant (ex : RawExample) (p : String) (hl : ex.label < 5)
    (hsel : [ex.holding_0, ex.holding_1, ex.holding_2, ex.holding_3,
      ex.holding_4].getD ex.label none = some p) :
    ∃ ne, shapeExample ex = some ne ∧ ne.label = ex.label ∧
      ne.label < ne.docs.length ∧
      ne.docs.getD ne.label none = some (ne.relevant_passages.getD 0 "") ∧
      ne.relevant_passages = [p] := by
  obtain ⟨cp, lab, o0, o1, o2, o3, o4⟩ := ex
  simp only at hl hsel ⊢
  interval_cases lab <;>
    simp only [List.getD_cons_succ, List.getD_cons_zero] at hsel <;>
    subst hsel <;>
    exact ⟨_, rfl, rfl, by simp [all_labels], rfl, rfl⟩

/-- Witness for C8 at the concrete raw example with label 4. -/
theorem shaper_label_invariant_witness :
    ((RawExample.mk "q" 4 (some "a") (some "b") (some "c") (some "d") (some "e")).label < 5 ∧
      [(RawExample.mk "q" 4 (some "a") (some "b") (some "c") (some "d") (some "e")).holding_0,
       (RawExample.mk "q" 4 (some "a") (some "b") (some "c") (some "d") (some "e")).holding_1,
       (RawExample.mk "q" 4 (some "a") (some "b") (some "c") (some "d") (some "e")).holding_2,
       (RawExample.mk "q" 4 (some "a") (some "b") (some "c") (some "d") (some "e")).holding_3,
       (RawExample.mk "q" 4 (some "a") (some "b") (some "c") (some "d") (some "e")).holding_4].getD
         (RawExample.mk "q" 4 (some "a") (some "b") (some "c") (some "d") (some "e")).label none = some "e") ∧
    (∃ ne, shapeExample (RawExample.mk "q" 4 (some "a") (some "b") (some "c") (some "d") (some "e")) = some ne ∧
      ne.label = (RawExample.mk "q" 4 (some "a") (some "b") (some "c") (some "d") (some "e")).label ∧
      ne.label < ne.docs.length ∧
      ne.docs.getD ne.label none = some (ne.relevant_passages.getD 0 "") ∧
      ne.relevant_passages = ["e"]) :=
  ⟨⟨by decide, by decide⟩,
   shaper_label_invariant (RawExample.mk "q" 4 (some "a") (some "b") (some "c") (some "d") (some "e"))
     "e" (by decide) (by decide)⟩

/-! ## Claim C9: asymmetric failure on bad input -/

/-- C9: if a raw example's label lies outside `[0,5)`, shaping fails (the
constructed selected-passage key finds no field) and no normalized example
is produced; but if the label is in range (with its selected passage
present) and some non-selected holding field is missing, shaping silently
succeeds and the resulting `docs` and `hard_negatives` contain a null entry
in place of the missing passage. -/
theorem shaper_failure_asymmetry (ex : RawExample) :
    (5 ≤ ex.label → shapeExample ex = none) ∧
    (∀ j p, j < 5 → ex.label < 5 → j ≠ ex.label →
      [ex.holding_0, ex.holding_1, ex.holding_2, ex.holding_3,
        ex.holding_4].getD ex.label none = some p →
      [ex.holding_0, ex.holding_1, ex.holding_2, ex.holding_3,
        ex.holding_4].getD j none = none →
      ∃ ne, shapeExample ex = some ne ∧
        ne.docs.getD j (some "") = none ∧
        none ∈ ne.hard_negatives ∧ none ∈ ne.docs) := by
  constructor
  · intro h5
    have hk := get_constructedKey_ge5 ex h5
    simp only [shapeExample]
    rw [hk]
  · intro j p hj hl hne hsel hmiss
    obtain ⟨cp, lab, o0, o1, o2, o3, o4⟩ := ex
    simp only at hl hj hne hsel hmiss ⊢
    interval_cases lab <;> interval_cases j <;>
      simp only [List.getD_cons_succ, List.getD_cons_zero] at hsel hmiss <;>
      subst hsel <;>
      first
        | exact absurd hmiss (by simp)
        | (subst hmiss
           refine ⟨_, rfl, rfl, ?_, ?_⟩ <;>
             repeat first | exact List.Mem.head _ | apply List.Mem.tail)

/-- Witness for C9: the out-of-range branch at label 7 and the
missing-field branch at label 0 with `holding_2` absent. -/
theorem shaper_failure_asymmetry_witness :
    ((5 ≤ (RawExample.mk "q" 7 (some "a") (some "b") (some "c") (some "d") (some "e")).label →
      shapeExample (RawExample.mk "q" 7 (some "a") (some "b") (some "c") (some "d") (some "e")) = none) ∧
     shapeExample (RawExample.mk "q" 7 (some "a") (some "b") (some "c") (some "d") (some "e")) = none) ∧
    (∃ ne, shapeExample (RawExample.mk "q" 0 (some "a") (some "b") none (some "d") (some "e")) = some ne ∧
      ne.docs.getD 2 (some "") = none ∧
      none ∈ ne.hard_negatives ∧ none ∈ ne.docs) :=
  ⟨⟨(shaper_failure_asymmetry (RawExample.mk "q" 7 (some "a") (some "b") (some "c") (some "d") (some "e"))).1,
    (shaper_failure_asymmetry (RawExample.mk "q" 7 (some "a") (some "b") (some "c") (some "d") (some "e"))).1 (by decide)⟩,
   (shaper_failure_asymmetry (RawExample.mk "q" 0 (some "a") (some "b") none (some "d") (some "e"))).2
     2 "a" (by decide) (by decide) (by decide) (by decide) (by decide)⟩

/-! ## JSON encoder and reader lemmas for the serializer claims -/

theorem parseHexDigit_hexDigitChar : ∀ m, m < 16 → parseHexDigit (hexDigitChar m) = some m := by
  decide

theorem hex4_hexDigitChar (n : Nat) (hn : n < 65536) :
    hex4 (hexDigitChar (n / 4096 % 16)) (hexDigitChar (n / 256 % 16))
      (hexDigitChar (n / 16 % 16)) (hexDigitChar (n % 16)) = some n := by
  unfold hex4
  rw [parseHexDigit_hexDigitChar _ (by omega), parseHexDigit_hexDigitChar _ (by omega),
    parseHexDigit_hexDigitChar _ (by omega), parseHexDigit_hexDigitChar _ (by omega)]
  simp only []
  congr 1
  omega

theorem nextToken_uEscape_bmp (n : Nat) (hn : n < 65536)
    (hno1 : ¬(55296 ≤ n ∧ n < 56320)) (hno2 : ¬(56320 ≤ n ∧ n < 57344)) (t : List Char) :
    nextToken (uEscape n ++ t) = some (some (Char.ofNat n), t) := by
  show nextUnicode (hexDigitChar (n / 4096 % 16) :: hexDigitChar (n / 256 % 16)
      :: hexDigitChar (n / 16 % 16) :: hexDigitChar (n % 16) :: t)
    = some (some (Char.ofNat n), t)
  unfold nextUnicode
  simp only []
  rw [hex4_hexDigitChar n hn]
  simp only []
  rw [if_neg hno1, if_neg hno2]

theorem nextToken_surrogatePair (hi lo : Nat)
    (hhi : 55296 ≤ hi ∧ hi < 56320) (hlo : 56320 ≤ lo ∧ lo < 57344) (t : List Char) :
    nextToken ((uEscape hi ++ uEscape lo) ++ t)
      = some (some (Char.ofNat (65536 + (hi - 55296) * 1024 + (lo - 56320))), t) := by
  show nextUnicode (hexDigitChar (hi / 4096 % 16) :: hexDigitChar (hi / 256 % 16)
      :: hexDigitChar (hi / 16 % 16) :: hexDigitChar (hi % 16) :: (uEscape lo ++ t))
    = some (some (Char.ofNat (65536 + (hi - 55296) * 1024 + (lo - 56320))), t)
  unfold nextUnicode
  simp only []
  rw [hex4_hexDigitChar hi (by omega)]
  simp only []
  rw [if_pos hhi]
  show nextLowSurrogate hi
      ('\\' :: 'u' :: hexDigitChar (lo / 4096 % 16) :: hexDigitChar (lo / 256 % 16)
        :: hexDigitChar (lo / 16 % 16) :: hexDigitChar (lo % 16) :: t)
    = some (some (Char.ofNat (65536 + (hi - 55296) * 1024 + (lo - 56320))), t)
  unfold nextLowSurrogate
  simp only []
  rw [if_pos (by exact ⟨trivial, trivial⟩)]
  rw [hex4_hexDigitChar lo (by omega)]
  simp only []
  rw [if_pos hlo]

theorem nextToken_escapeChar (c : Char) (t : List Char) :
    nextToken (escapeChar c ++ t) = some (some c, t) := by
  have hv : c.toNat < 55296 ∨ (57343 < c.toNat ∧ c.toNat < 1114112) := c.valid
  unfold escapeChar
  split_ifs with h1 h2 h3 h4 h5 h6 h7 h8 h9
  · subst h1; rfl
  · subst h2; rfl
  · subst h3; rfl
  · subst h4; rfl
  · subst h5; rfl
  · show nextToken ('\\' :: 'b' :: t) = some (some c, t)
    have hc : Char.ofNat 8 = c := by rw [← h6, Char.ofNat_toNat]
    rw [show nextToken ('\\' :: 'b' :: t) = some (some (Char.ofNat 8), t) from rfl, hc]
  · show nextToken ('\\' :: 'f' :: t) = some (some c, t)
    have hc : Char.ofNat 12 = c := by rw [← h7, Char.ofNat_toNat]
    rw [show nextToken ('\\' :: 'f' :: t) = some (some (Char.ofNat 12), t) from rfl, hc]
  · show nextToken (c :: t) = some (some c, t)
    simp only [nextToken]
    rw [if_neg h1, if_neg h2]
  · rw [nextToken_uEscape_bmp c.toNat h9 (by omega) (by omega) t, Char.ofNat_toNat]
  · rw [List.append_assoc] at *
    rw [← List.append_assoc (uEscape (55296 + (c.toNat - 65536) / 1024))]
    rw [nextToken_surrogatePair (55296 + (c.toNat - 65536) / 1024)
      (56320 + (c.toNat - 65536) % 1024) (by omega) (by omega) t]
    have harith : 65536 + (55296 + (c.toNat - 65536) / 1024 - 55296) * 1024
        + (56320 + (c.toNat - 65536) % 1024 - 56320) = c.toNat := by omega
    rw [harith, Char.ofNat_toNat]

theorem escapeChar_length_pos (c : Char) : 1 ≤ (escapeChar c).length := by
  unfold escapeChar
  split_ifs <;> simp [uEscape]

theorem flatMap_escape_length (l : List Char) :
    l.length ≤ (l.flatMap escapeChar).length := by
  induction l with
  | nil => simp
  | cons c l ih =>
    rw [List.flatMap_cons, List.length_append, List.length_cons]
    have := escapeChar_length_pos c
    omega

theorem parseStringBodyF_roundtrip (s : List Char) : ∀ (fuel : Nat) (t : List Char),
    s.length + 1 ≤ fuel →
    parseStringBodyF fuel (s.flatMap escapeChar ++ '"' :: t) = some (s, t) := by
  induction s with
  | nil =>
    intro fuel t hf
    cases fuel with
    | zero => omega
    | succ f =>
      show parseStringBodyF (f + 1) ('"' :: t) = some ([], t)
      simp only [parseStringBodyF]
      rw [show nextToken ('"' :: t) = some (none, t) from rfl]
  | cons c s ih =>
    intro fuel t hf
    cases fuel with
    | zero => omega
    | succ f =>
      rw [List.flatMap_cons, List.append_assoc]
      simp only [parseStringBodyF]
      rw [nextToken_escapeChar c _]
      simp only []
      rw [ih f t (by simp at hf ⊢; omega)]
      rfl

theorem parseJsonString_encode (s : String) (t : List Char) :
    parseJsonString (encodeJsonString s ++ t) = some (s.data, t) := by
  have hshape : encodeJsonString s ++ t = '"' :: (s.data.flatMap escapeChar ++ '"' :: t) := by
    simp [encodeJsonString]
  rw [hshape]
  simp only [parseJsonString, if_true]
  refine parseStringBodyF_roundtrip s.data _ t ?_
  have h1 := flatMap_escape_length s.data
  simp only [List.length_append, List.length_cons]
  omega

theorem encodeStrListBody_length (xs : List String) :
    xs.length ≤ (encodeStrListBody xs).length := by
  induction xs with
  | nil => simp [encodeStrListBody]
  | cons x xs ih =>
    cases xs with
    | nil => simp [encodeStrListBody, encodeJsonString]
    | cons y ys =>
      simp only [encodeStrListBody, List.length_append, List.length_cons] at ih ⊢
      simp [encodeJsonString]
      omega

theorem encodeStrListBody_cons_head (x : String) (xs : List String) :
    ∃ R, encodeStrListBody (x :: xs) = '"' :: R := by
  cases xs <;> exact ⟨_, rfl⟩

theorem parseStrItems_encode (xs : List String) (hne : xs ≠ []) :
    ∀ (fuel : Nat), xs.length ≤ fuel → ∀ t,
    parseStrItems fuel (encodeStrListBody xs ++ ']' :: t) = some (xs.map String.data, t) := by
  induction xs with
  | nil => simp at hne
  | cons x xs ih =>
    intro fuel hf t
    cases fuel with
    | zero => simp at hf
    | succ f =>
      cases xs with
      | nil =>
        show parseStrItems (f + 1) (encodeJsonString x ++ ']' :: t) = some ([x.data], t)
        simp only [parseStrItems]
        rw [parseJsonString_encode x (']' :: t)]
        rfl
      | cons y ys =>
        show parseStrItems (f + 1)
            ((encodeJsonString x ++ (", ".data ++ encodeStrListBody (y :: ys))) ++ ']' :: t)
          = some (x.data :: (y :: ys).map String.data, t)
        rw [List.append_assoc, List.append_assoc]
        simp only [parseStrItems]
        rw [parseJsonString_encode x _]
        simp only []
        rw [show (", ".data ++ (encodeStrListBody (y :: ys) ++ ']' :: t) : List Char)
          = ',' :: ' ' :: (encodeStrListBody (y :: ys) ++ ']' :: t) from rfl]
        simp only []
        rw [ih (by simp) f (by simp at hf ⊢; omega) t]

theorem parseStrList_encode (xs : List String) (t : List Char) :
    parseStrList (encodeStrList xs ++ t) = some (xs.map String.data, t) := by
  cases xs with
  | nil =>
    show parseStrList ('[' :: ']' :: t) = some ([], t)
    rfl
  | cons x xs =>
    obtain ⟨R, hR⟩ := encodeStrListBody_cons_head x xs
    have hshape : encodeStrList (x :: xs) ++ t
        = '[' :: '"' :: (R ++ ']' :: t) := by
      simp [encodeStrList, hR]
    rw [hshape]
    show parseStrItems ('"' :: (R ++ ']' :: t)).length ('"' :: (R ++ ']' :: t))
      = some ((x :: xs).map String.data, t)
    have hlen : (x :: xs).length ≤ ('"' :: (R ++ ']' :: t)).length := by
      have h1 := encodeStrListBody_length (x :: xs)
      rw [hR] at h1
      simp only [List.length_cons, List.length_append] at h1 ⊢
      omega
    have := parseStrItems_encode (x :: xs) (by simp) ('"' :: (R ++ ']' :: t)).length hlen t
    rw [hR] at this
    rw [show (('"' :: R) ++ ']' :: t : List Char) = '"' :: (R ++ ']' :: t) from rfl] at this
    exact this

theorem expects_append (p t : List Char) : expects p (p ++ t) = some t := by
  induction p with
  | nil => rfl
  | cons c p ih =>
    show expects (c :: p) (c :: (p ++ t)) = some t
    simp only [expects, if_true]
    exact ih

theorem map_mk_map_data (xs : List String) :
    (xs.map String.data).map (fun x => (⟨x⟩ : String)) = xs := by
  induction xs with
  | nil => rfl
  | cons x xs ih => simp only [List.map_cons, ih]

theorem parseRecordLine_encodeRecord (r : FineTuneRecord) :
    parseRecordLine (encodeRecord r) = some r := by
  obtain ⟨q, rp, hn⟩ := r
  unfold parseRecordLine encodeRecord
  rw [List.append_assoc, List.append_assoc, List.append_assoc, List.append_assoc,
    List.append_assoc]
  rw [expects_append]
  simp only [Option.bind_eq_bind, Option.some_bind]
  rw [parseJsonString_encode]
  simp only [Option.bind_eq_bind, Option.some_bind]
  rw [expects_append]
  simp only [Option.bind_eq_bind, Option.some_bind]
  rw [parseStrList_encode]
  simp only [Option.bind_eq_bind, Option.some_bind]
  rw [expects_append]
  simp only [Option.bind_eq_bind, Option.some_bind]
  rw [parseStrList_encode]
  simp only [Option.bind_eq_bind, Option.some_bind]
  rw [show expects ['\x7d'] ['\x7d'] = some [] from rfl]
  simp only [Option.bind_eq_bind, Option.some_bind, map_mk_map_data, if_pos]

theorem hexDigitChar_ne_nl (m : Nat) : hexDigitChar m ≠ '\n' := by
  unfold hexDigitChar
  split <;> decide

theorem uEscape_not_nl (n : Nat) : '\n' ∉ uEscape n := by
  intro hx
  simp only [uEscape, List.mem_cons, List.not_mem_nil, or_false] at hx
  rcases hx with hx | hx
  · exact absurd hx.symm (by decide)
  rcases hx with hx | hx
  · exact absurd hx.symm (by decide)
  rcases hx with hx | hx
  · exact absurd hx.symm (hexDigitChar_ne_nl _)
  rcases hx with hx | hx
  · exact absurd hx.symm (hexDigitChar_ne_nl _)
  rcases hx with hx | hx
  · exact absurd hx.symm (hexDigitChar_ne_nl _)
  · exact absurd hx.symm (hexDigitChar_ne_nl _)

theorem escapeChar_not_nl (c : Char) : '\n' ∉ escapeChar c := by
  unfold escapeChar
  split_ifs with h1 h2 h3 h4 h5 h6 h7 h8 h9 <;> intro hx
  · simp only [List.mem_cons, List.not_mem_nil, or_false] at hx
    rcases hx with hx | hx <;> exact absurd hx.symm (by decide)
  · simp only [List.mem_cons, List.not_mem_nil, or_false] at hx
    rcases hx with hx | hx <;> exact absurd hx.symm (by decide)
  · simp only [List.mem_cons, List.not_mem_nil, or_false] at hx
    rcases hx with hx | hx <;> exact absurd hx.symm (by decide)
  · simp only [List.mem_cons, List.not_mem_nil, or_false] at hx
    rcases hx with hx | hx <;> exact absurd hx.symm (by decide)
  · simp only [List.mem_cons, List.not_mem_nil, or_false] at hx
    rcases hx with hx | hx <;> exact absurd hx.symm (by decide)
  · simp only [List.mem_cons, List.not_mem_nil, or_false] at hx
    rcases hx with hx | hx <;> exact absurd hx.symm (by decide)
  · simp only [List.mem_cons, List.not_mem_nil, or_false] at hx
    rcases hx with hx | hx <;> exact absurd hx.symm (by decide)
  · simp only [List.mem_cons, List.not_mem_nil, or_false] at hx
    subst hx
    exact absurd h8 (by decide)
  · exact uEscape_not_nl _ hx
  · rcases List.mem_append.mp hx with hx | hx
    · exact uEscape_not_nl _ hx
    · exact uEscape_not_nl _ hx

theorem encodeJsonString_not_nl (s : String) : '\n' ∉ encodeJsonString s := by
  intro hx
  simp only [encodeJsonString, List.mem_cons, List.mem_append, List.not_mem_nil,
    or_false] at hx
  rcases hx with hx | hx | hx
  · exact absurd hx (by decide)
  · obtain ⟨c, _, hc⟩ := List.mem_flatMap.mp hx
    exact escapeChar_not_nl c hc
  · exact absurd hx (by decide)

theorem encodeStrListBody_not_nl (xs : List String) : '\n' ∉ encodeStrListBody xs := by
  induction xs with
  | nil => simp [encodeStrListBody]
  | cons x xs ih =>
    cases xs with
    | nil => exact encodeJsonString_not_nl x
    | cons y ys =>
      intro hx
      rcases List.mem_append.mp hx with hx | hx
      · exact encodeJsonString_not_nl x hx
      · rcases List.mem_append.mp hx with hx | hx
        · simp only [List.mem_cons, List.not_mem_nil, or_false] at hx
          rcases hx with hx | hx <;> exact absurd hx.symm (by decide)
        · exact ih hx

theorem encodeStrList_not_nl (xs : List String) : '\n' ∉ encodeStrList xs := by
  intro hx
  simp only [encodeStrList, List.mem_cons, List.mem_append, List.not_mem_nil,
    or_false] at hx
  rcases hx with hx | hx | hx
  · exact absurd hx (by decide)
  · exact encodeStrListBody_not_nl xs hx
  · exact absurd hx (by decide)

theorem encodeRecord_not_nl (r : FineTuneRecord) : '\n' ∉ encodeRecord r := by
  intro hx
  simp only [encodeRecord, List.mem_append] at hx
  rcases hx with ((((((hx | hx) | hx) | hx) | hx) | hx) | hx)
  · exact absurd hx (by decide)
  · exact encodeJsonString_not_nl _ hx
  · exact absurd hx (by decide)
  · exact encodeStrList_not_nl _ hx
  · exact absurd hx (by decide)
  · exact encodeStrList_not_nl _ hx
  · exact absurd hx (by decide)

theorem splitOnNl_append_line (s rest : List Char) (h : '\n' ∉ s) :
    splitOnNl (s ++ '\n' :: rest) = s :: splitOnNl rest := by
  induction s with
  | nil =>
    show splitOnNl ('\n' :: rest) = [] :: splitOnNl rest
    simp [splitOnNl]
  | cons c s ih =>
    have hc : c ≠ '\n' := fun hh => h (hh ▸ List.mem_cons_self c s)
    have hs : '\n' ∉ s := fun hh => h (List.mem_cons_of_mem c hh)
    show splitOnNl (c :: (s ++ '\n' :: rest)) = (c :: s) :: splitOnNl rest
    simp only [splitOnNl]
    rw [if_neg hc, ih hs]

theorem splitOnNl_jsonlContent (rows : List FineTuneRecord) :
    splitOnNl (jsonlContent rows)
      = rows.map (fun row => encodeRecord (create_rerank_ft_data row.query
          row.relevant_passages row.hard_negatives)) ++ [[]] := by
  induction rows with
  | nil => rfl
  | cons r rows ih =>
    show splitOnNl ((encodeRecord (create_rerank_ft_data r.query r.relevant_passages
        r.hard_negatives) ++ ['\n']) ++ jsonlContent rows) = _
    rw [List.append_assoc]
    rw [show (['\n'] ++ jsonlContent rows : List Char) = '\n' :: jsonlContent rows from rfl]
    rw [splitOnNl_append_line _ _ (encodeRecord_not_nl _), ih]
    rfl

theorem count_nl_jsonlContent (rows : List FineTuneRecord) :
    (jsonlContent rows).count '\n' = rows.length := by
  induction rows with
  | nil => rfl
  | cons r rows ih =>
    show ((encodeRecord (create_rerank_ft_data r.query r.relevant_passages
        r.hard_negatives) ++ ['\n']) ++ jsonlContent rows).count '\n' = rows.length + 1
    rw [List.count_append, List.count_append, ih]
    rw [List.count_eq_zero.mpr (encodeRecord_not_nl _)]
    exact Nat.add_comm 1 rows.length

/-! ## Claim C4: serializer format and round-trip -/

/-- C4: when the destination file does not already exist, the serializer
writes exactly one self-contained JSON object per input record, one per
line and in input slice order, each with keys `query`, `relevant_passages`
and `hard_negatives` (the label omitted); re-parsing each written line
reproduces the exact `FineTuneRecord` that was written, field for field,
for every record in the slice. -/
theorem serializer_format_and_roundtrip (fs : String → Option (List Char))
    (file_name : String) (rows : List FineTuneRecord)
    (hnew : fs (file_name ++ ".jsonl") = none) :
    create_jsonl_from_list fs file_name rows (file_name ++ ".jsonl")
      = some (jsonlContent rows) ∧
    splitOnNl (jsonlContent rows)
      = rows.map (fun row => encodeRecord (create_rerank_ft_data row.query
          row.relevant_passages row.hard_negatives)) ++ [[]] ∧
    (∀ r ∈ rows, parseRecordLine (encodeRecord (create_rerank_ft_data r.query
      r.relevant_passages r.hard_negatives)) = some r) := by
  refine ⟨?_, splitOnNl_jsonlContent rows, ?_⟩
  · unfold create_jsonl_from_list
    rw [hnew]
    simp
  · intro r _
    exact parseRecordLine_encodeRecord r

/-- Witness for C4: a one-record slice serialized to a fresh file. -/
theorem serializer_format_and_roundtrip_witness :
    ((fun _ : String => (none : Option (List Char))) ("casehold_train" ++ ".jsonl") = none) ∧
    (create_jsonl_from_list (fun _ => none) "casehold_train"
        [⟨"q", ["r"], ["h"]⟩] ("casehold_train" ++ ".jsonl")
      = some (jsonlContent [⟨"q", ["r"], ["h"]⟩]) ∧
    splitOnNl (jsonlContent [(⟨"q", ["r"], ["h"]⟩ : FineTuneRecord)])
      = ([(⟨"q", ["r"], ["h"]⟩ : FineTuneRecord)]).map
          (fun row => encodeRecord (create_rerank_ft_data row.query
            row.relevant_passages row.hard_negatives)) ++ [[]] ∧
    (∀ r ∈ [(⟨"q", ["r"], ["h"]⟩ : FineTuneRecord)],
      parseRecordLine (encodeRecord (create_rerank_ft_data r.query
        r.relevant_passages r.hard_negatives)) = some r)) :=
  ⟨rfl, serializer_format_and_roundtrip (fun _ => none) "casehold_train"
    [⟨"q", ["r"], ["h"]⟩] rfl⟩

/-! ## Claim C5: serializer skip-if-exists -/

/-- C5: if the destination file already exists when the serializer is
invoked, the operation is skipped entirely: the whole filesystem, and in
particular the existing file's contents, are left unchanged even though the
input slice differs from whatever the file held. -/
theorem serializer_skip_if_exists (fs : String → Option (List Char))
    (file_name : String) (rows : List FineTuneRecord) (c : List Char)
    (hex : fs (file_name ++ ".jsonl") = some c) :
    create_jsonl_from_list fs file_name rows = fs ∧
    create_jsonl_from_list fs file_name rows (file_name ++ ".jsonl") = some c := by
  have hz : create_jsonl_from_list fs file_name rows
      = match fs (file_name ++ ".jsonl") with
        | some _ => fs
        | none => fun p =>
            if p = file_name ++ ".jsonl" then some (jsonlContent rows) else fs p := rfl
  have h1 : create_jsonl_from_list fs file_name rows = fs := by
    rw [hz, hex]
  exact ⟨h1, by rw [h1, hex]⟩

/-- Witness for C5: an existing one-byte file is left untouched by a second
run with different data. -/
theorem serializer_skip_if_exists_witness :
    ((fun p : String => if p = "casehold_valid.jsonl" then some ['x'] else none)
        ("casehold_valid" ++ ".jsonl") = some ['x']) ∧
    (create_jsonl_from_list
        (fun p => if p = "casehold_valid.jsonl" then some ['x'] else none)
        "casehold_valid" [⟨"other", ["a"], ["b"]⟩]
      = (fun p => if p = "casehold_valid.jsonl" then some ['x'] else none) ∧
    create_jsonl_from_list
        (fun p => if p = "casehold_valid.jsonl" then some ['x'] else none)
        "casehold_valid" [⟨"other", ["a"], ["b"]⟩] ("casehold_valid" ++ ".jsonl")
      = some ['x']) :=
  ⟨by decide, serializer_skip_if_exists
    (fun p => if p = "casehold_valid.jsonl" then some ['x'] else none)
    "casehold_valid" [⟨"other", ["a"], ["b"]⟩] ['x'] (by decide)⟩

/-! ## Claim C10: one line per record regardless of content -/

/-- C10: the serialized file for a fresh destination contains exactly as
many lines as the input slice has records, even when a query or passage
text itself contains newline characters: the JSON escaping never emits a
raw newline, so splitting the written contents at newlines yields exactly
the encoded records (plus the empty chunk after the trailing newline), and
the newline count equals the record count. -/
theorem jsonl_one_line_per_record (rows : List FineTuneRecord) :
    (∀ r ∈ rows, '\n' ∉ encodeRecord (create_rerank_ft_data r.query
      r.relevant_passages r.hard_negatives)) ∧
    splitOnNl (jsonlContent rows)
      = rows.map (fun row => encodeRecord (create_rerank_ft_data row.query
          row.relevant_passages row.hard_negatives)) ++ [[]] ∧
    (jsonlContent rows).count '\n' = rows.length := by
  exact ⟨fun r _ => encodeRecord_not_nl _, splitOnNl_jsonlContent rows,
    count_nl_jsonlContent rows⟩
